import Mathlib

/-!
Verification development for the Lex dialogue-scripting engine: a shallow
embedding in Lean 4 of the parser (`src/parser/functions.rs`, with the data
model of `src/parser/types.rs`) and of the traversal engine
(`src/player/mod.rs`), together with theorems settling the specification
claims about them.

Modelling conventions:
- Rust `String`/`&str` is Lean `String`; all string operations are
  reimplemented structurally over `List Char` (so that the kernel can
  evaluate them) and model the Rust standard library behaviour for the
  ASCII inputs this format uses. `trim` models `str::trim`,
  `toLowerString` models `str::to_lowercase` (ASCII range).
- Rust `HashMap<String, V>` is an association list `List (String × V)`
  with `insert` replacing an existing binding in place; iteration order is
  never observed by the embedded code.
- Rust `f64` values produced by `str::parse::<f64>` are modelled exactly as
  rationals (`ℚ`). The model accepts the finite decimal grammar
  (sign, digits, optional fraction, optional exponent); `inf`/`nan`
  spellings and rounding to binary are not modelled — no claim touches
  them, every numeral in the claims is exactly representable.
- Panics (`unwrap`/`expect`) are modelled with `Except Unit` or explicit
  `panicked` outcomes; fallible parsing returns `Option`.
- Both top-level loops (`parse`'s line loop and `play`'s stack loop) are
  written with an explicit fuel parameter so that they are structurally
  recursive. `parse` always supplies fuel equal to the number of input
  lines, which the loop never exhausts since every iteration consumes at
  least one line; `play`'s loop in Rust need not terminate at all, so the
  embedding exposes the tick count and reports `fuelOut` when it stops
  early.
-/

/-- Model of `DialogueValue` from `src/parser/types.rs`. `Number` carries an
exact rational standing for the Rust `f64` (see the file header note). -/
inductive DialogueValue where
  | Text (s : String)
  | Number (q : ℚ)
  | Boolean (b : Bool)
  | Array (xs : List String)
deriving DecidableEq

mutual

/-- Model of `DialogueStep` from `src/parser/types.rs`. -/
inductive DialogueStep where
  | Comment (s : String)
  | LogInfo (s : String)
  | LogWarning (s : String)
  | LogError (s : String)
  | Page (lines : List DialogueLine)
  | VariableAssign (name : String) (value : DialogueValue)
  | SectionBounce (target : String)
  | SectionJump (target : String)
  | EndJump
  | TerminateJump

/-- Model of `DialogueLine` from `src/parser/types.rs`. -/
inductive DialogueLine where
  | Text (s : String)
  | SpeakerText (speaker : String) (text : String)
  | Response (text : String) (pages : List DialogueStep)

end

mutual

/-- Structural equality on steps, modelling the derived `PartialEq`. -/
def stepBeq : DialogueStep → DialogueStep → Bool
  | .Comment a, .Comment b => a == b
  | .LogInfo a, .LogInfo b => a == b
  | .LogWarning a, .LogWarning b => a == b
  | .LogError a, .LogError b => a == b
  | .Page xs, .Page ys => lineListBeq xs ys
  | .VariableAssign n v, .VariableAssign n' v' => n == n' && v == v'
  | .SectionBounce a, .SectionBounce b => a == b
  | .SectionJump a, .SectionJump b => a == b
  | .EndJump, .EndJump => true
  | .TerminateJump, .TerminateJump => true
  | _, _ => false
termination_by structural a => a

/-- Structural equality on lines, modelling the derived `PartialEq`. -/
def lineBeq : DialogueLine → DialogueLine → Bool
  | .Text a, .Text b => a == b
  | .SpeakerText s t, .SpeakerText s' t' => s == s' && t == t'
  | .Response t ps, .Response t' ps' => t == t' && stepListBeq ps ps'
  | _, _ => false
termination_by structural a => a

/-- Pointwise equality of line lists. -/
def lineListBeq : List DialogueLine → List DialogueLine → Bool
  | [], [] => true
  | x :: xs, y :: ys => lineBeq x y && lineListBeq xs ys
  | _, _ => false
termination_by structural a => a

/-- Pointwise equality of step lists. -/
def stepListBeq : List DialogueStep → List DialogueStep → Bool
  | [], [] => true
  | x :: xs, y :: ys => stepBeq x y && stepListBeq xs ys
  | _, _ => false
termination_by structural a => a

end

mutual

/-- `stepBeq` decides propositional equality. -/
def stepBeqIff : (a b : DialogueStep) → (stepBeq a b = true ↔ a = b)
  | .Comment _, b => by cases b <;> simp [stepBeq]
  | .LogInfo _, b => by cases b <;> simp [stepBeq]
  | .LogWarning _, b => by cases b <;> simp [stepBeq]
  | .LogError _, b => by cases b <;> simp [stepBeq]
  | .Page xs, b => by
      cases b <;> simp [stepBeq]
      case Page ys => exact lineListBeqIff xs ys
  | .VariableAssign _ _, b => by cases b <;> simp [stepBeq]
  | .SectionBounce _, b => by cases b <;> simp [stepBeq]
  | .SectionJump _, b => by cases b <;> simp [stepBeq]
  | .EndJump, b => by cases b <;> simp [stepBeq]
  | .TerminateJump, b => by cases b <;> simp [stepBeq]

/-- `lineBeq` decides propositional equality. -/
def lineBeqIff : (a b : DialogueLine) → (lineBeq a b = true ↔ a = b)
  | .Text _, b => by cases b <;> simp [lineBeq]
  | .SpeakerText _ _, b => by cases b <;> simp [lineBeq]
  | .Response t ps, b => by
      cases b <;> simp [lineBeq]
      case Response t' ps' => intro _; exact stepListBeqIff ps ps'

/-- `lineListBeq` decides propositional equality. -/
def lineListBeqIff : (a b : List DialogueLine) → (lineListBeq a b = true ↔ a = b)
  | [], [] => by simp [lineListBeq]
  | [], _ :: _ => by simp [lineListBeq]
  | _ :: _, [] => by simp [lineListBeq]
  | x :: xs, y :: ys => by
      simp [lineListBeq, lineBeqIff x y, lineListBeqIff xs ys]

/-- `stepListBeq` decides propositional equality. -/
def stepListBeqIff : (a b : List DialogueStep) → (stepListBeq a b = true ↔ a = b)
  | [], [] => by simp [stepListBeq]
  | [], _ :: _ => by simp [stepListBeq]
  | _ :: _, [] => by simp [stepListBeq]
  | x :: xs, y :: ys => by
      simp [stepListBeq, stepBeqIff x y, stepListBeqIff xs ys]

end

instance : DecidableEq DialogueStep :=
  fun a b => decidable_of_iff (stepBeq a b = true) (stepBeqIff a b)

instance : DecidableEq DialogueLine :=
  fun a b => decidable_of_iff (lineBeq a b = true) (lineBeqIff a b)

/-- Model of `DialogueSection` from `src/parser/types.rs`. -/
structure DialogueSection where
  name : String
  steps : List DialogueStep
deriving DecidableEq

/-- Model of `DialogueActor` from `src/parser/types.rs`; `properties` models
the Rust `HashMap` as an association list. -/
structure DialogueActor where
  name : String
  properties : List (String × DialogueValue)
deriving DecidableEq

/-- Model of `DialogueFunction` from `src/parser/types.rs`. -/
structure DialogueFunction where
  args : Option (List (String × DialogueValue))
  result : Option DialogueValue
deriving DecidableEq

/-- Model of `Dialogue` from `src/parser/types.rs`; the three maps model
Rust `HashMap`s as association lists. The Rust field `variables` is called
`vars` here because `variables` is reserved in Lean. -/
structure Dialogue where
  actors : List (String × DialogueActor)
  vars : List (String × DialogueValue)
  functions : List (String × DialogueFunction)
  sections : List DialogueSection
deriving DecidableEq

/-- `Dialogue::default()`. -/
def emptyDialogue : Dialogue := ⟨[], [], [], []⟩

/-- `HashMap::contains_key`. -/
def mapContains {α : Type} (m : List (String × α)) (k : String) : Bool :=
  m.any (fun p => p.1 == k)

/-- `HashMap::get` (`None` when the key is absent). -/
def mapGet {α : Type} (m : List (String × α)) (k : String) : Option α :=
  (m.find? (fun p => p.1 == k)).map (fun p => p.2)

/-- `HashMap::insert`: replace the binding in place when the key is present,
otherwise add a new binding. -/
def mapInsert {α : Type} (m : List (String × α)) (k : String) (v : α) :
    List (String × α) :=
  if mapContains m k then m.map (fun p => if p.1 == k then (k, v) else p)
  else m ++ [(k, v)]

/-- `HashMap::remove` (the player only uses its side effect). -/
def mapRemove {α : Type} (m : List (String × α)) (k : String) :
    List (String × α) :=
  m.filter (fun p => !(p.1 == k))

/-- Whitespace test used by `trim`, matching `char::is_whitespace` on the
ASCII characters that occur in this format. -/
def isWS (c : Char) : Bool :=
  c = ' ' || c = '\t' || c = '\r' || c = '\n'

/-- `str::trim` on the character list. -/
def trimChars (cs : List Char) : List Char :=
  ((cs.dropWhile isWS).reverse.dropWhile isWS).reverse

/-- `str::trim`. -/
def trim (s : String) : String := ⟨trimChars s.data⟩

/-- ASCII lowercasing of one character, modelling `char::to_lowercase` on
the ASCII range. -/
def lowerChar (c : Char) : Char :=
  if 'A' ≤ c ∧ c ≤ 'Z' then Char.ofNat (c.toNat + 32) else c

/-- `str::to_lowercase` (ASCII model). -/
def toLowerString (s : String) : String := ⟨s.data.map lowerChar⟩

/-- `str::strip_prefix` on character lists. -/
def stripPfxChars : List Char → List Char → Option (List Char)
  | [], s => some s
  | _ :: _, [] => none
  | p :: ps, c :: cs => if p = c then stripPfxChars ps cs else none

/-- `str::strip_prefix`. -/
def stripPfx (p s : String) : Option String :=
  (stripPfxChars p.data s.data).map (fun cs => ⟨cs⟩)

/-- `str::starts_with`. -/
def startsWith (s p : String) : Bool := (stripPfx p s).isSome

/-- `str::strip_suffix` (used by `parse_value` for the closing bracket). -/
def stripSfx (p s : String) : Option String :=
  (stripPfxChars p.data.reverse s.data.reverse).map (fun cs => ⟨cs.reverse⟩)

/-- Helper for `splitOnceChar`: accumulates the characters before the first
separator. -/
def splitOnceCharAux (c : Char) (acc : List Char) :
    List Char → Option (String × String)
  | [] => none
  | x :: xs =>
    if x = c then some (⟨acc.reverse⟩, ⟨xs⟩)
    else splitOnceCharAux c (x :: acc) xs

/-- `str::split_once` with a one-character pattern (the only patterns the
parser uses are `":"`, `"="` and `'('`). -/
def splitOnceChar (c : Char) (s : String) : Option (String × String) :=
  splitOnceCharAux c [] s.data

/-- `str::split` with a one-character pattern, on character lists. Empty
pieces are kept, like in Rust. -/
def splitChars (c : Char) : List Char → List (List Char)
  | [] => [[]]
  | x :: xs =>
    if x = c then [] :: splitChars c xs
    else
      match splitChars c xs with
      | [] => [[x]]
      | g :: gs => (x :: g) :: gs

/-- `str::split` with a one-character pattern. -/
def splitString (c : Char) (s : String) : List String :=
  (splitChars c s.data).map (fun cs => ⟨cs⟩)

/-- `str::trim_end_matches` with a one-character pattern (used to drop the
closing parentheses of an argument list). -/
def trimEndMatches (c : Char) (s : String) : String :=
  ⟨(s.data.reverse.dropWhile (fun x => x = c)).reverse⟩

/-- One line of `str::lines`: strip a trailing carriage return. -/
def stripCarriage (s : String) : String :=
  match s.data.reverse with
  | '\r' :: rest => ⟨rest.reverse⟩
  | _ => s

/-- `str::lines`: split on `'\n'`, strip the `'\r'` before each `'\n'`, and
drop the final empty piece left by a trailing newline. -/
def rustLines (s : String) : List String :=
  match (splitChars '\n' s.data).reverse with
  | [] => []
  | last :: revInit =>
    let init := (revInit.map (fun cs => stripCarriage ⟨cs⟩)).reverse
    if last.isEmpty then init else init ++ [(⟨last⟩ : String)]

/-- `str::parse::<bool>`: exactly `"true"` or `"false"`. -/
def parseRustBool (s : String) : Option Bool :=
  if s = "true" then some true
  else if s = "false" then some false
  else none

/-- Numeric value of a digit list, most significant first. -/
def digitsVal (ds : List Char) : Nat :=
  ds.foldl (fun acc c => acc * 10 + (c.toNat - '0'.toNat)) 0

/-- Exponent suffix of the `f64` grammar: empty, or `e`/`E`, an optional
sign and at least one digit. Returns the mantissa scaled by the exponent. -/
def parseExpTail (mant : ℚ) : List Char → Option ℚ
  | [] => some mant
  | e :: rest =>
    if e = 'e' ∨ e = 'E' then
      let signed : ℤ × List Char :=
        match rest with
        | '+' :: r => (1, r)
        | '-' :: r => (-1, r)
        | r => (1, r)
      let eds := signed.2.takeWhile Char.isDigit
      let after := signed.2.dropWhile Char.isDigit
      if eds.isEmpty || !after.isEmpty then none
      else some (mant * (10 : ℚ) ^ (signed.1 * (digitsVal eds : ℤ)))
    else none

/-- Significand and exponent of the `f64` grammar, after the sign: digits,
an optional point with further digits, and an optional exponent; at least
one digit must be present. -/
def parseSignificand (neg : Bool) (cs : List Char) : Option ℚ :=
  let intD := cs.takeWhile Char.isDigit
  let rest := cs.dropWhile Char.isDigit
  let mantAndTail : Option (ℚ × List Char) :=
    match rest with
    | '.' :: r =>
      let fracD := r.takeWhile Char.isDigit
      let tail := r.dropWhile Char.isDigit
      if intD.isEmpty && fracD.isEmpty then none
      else if fracD.isEmpty then some ((digitsVal intD : ℚ), tail)
      else some ((digitsVal (intD ++ fracD) : ℚ) / (10 : ℚ) ^ fracD.length, tail)
    | _ =>
      if intD.isEmpty then none else some ((digitsVal intD : ℚ), rest)
  match mantAndTail with
  | none => none
  | some (mant, tail) => parseExpTail (if neg then -mant else mant) tail

/-- Model of `str::parse::<f64>` restricted to the finite decimal grammar,
returning the exact rational value (see the file header note; `inf` and
`nan` spellings are not modelled). -/
def parseRustF64 (s : String) : Option ℚ :=
  match s.data with
  | '+' :: cs => parseSignificand false cs
  | '-' :: cs => parseSignificand true cs
  | cs => parseSignificand false cs


/-- The name of the synthetic first section. Modelled from the spec: the
constant `META_SECTION_NAME` is referenced by `parse` and by the tests but
its defining module is not in the sources; the spec fixes the conventional
name "Meta". -/
def META_SECTION_NAME : String := "Meta"

/-- `parse_section` (`functions.rs`): a `#`-prefixed line opens a new, empty
section named by the trimmed remainder. -/
def parse_section (line : String) : Option DialogueSection :=
  (stripPfx "#" line).map (fun s => ⟨trim s, []⟩)

/-- `parse_log_step` (`functions.rs`): `///`, `//?`, `//!` logs, tried in
this order. -/
def parse_log_step (line : String) : Option DialogueStep :=
  match stripPfx "///" line with
  | some t => some (.LogInfo (trim t))
  | none =>
  match stripPfx "//?" line with
  | some t => some (.LogWarning (trim t))
  | none => (stripPfx "//!" line).map (fun t => .LogError (trim t))

/-- `parse_comment_step` (`functions.rs`): `//`-prefixed comment line. -/
def parse_comment_step (line : String) : Option DialogueStep :=
  (stripPfx "//" line).map (fun t => .Comment (trim t))

/-- `parse_value` (`functions.rs`): boolean, then number, then bracketed
comma-array, else text. -/
def parse_value (v : String) : DialogueValue :=
  match parseRustBool v with
  | some bool_value => .Boolean bool_value
  | none =>
  match parseRustF64 v with
  | some number_value => .Number number_value
  | none =>
  match (stripPfx "[" v).bind (fun s => stripSfx "]" s) with
  | some comma_separated_values =>
    .Array (((splitString ',' comma_separated_values).map trim).filter
      (fun s => !s.isEmpty))
  | none => .Text v

/-- `parse_variable_definition` (`functions.rs`): `$name: value`, name
lowercased, stored in the variable map. -/
def parse_variable_definition (line : String) :
    Option (String × DialogueValue) :=
  ((stripPfx "$" line).bind (fun rest => splitOnceChar ':' rest)).map
    (fun p => (toLowerString (trim p.1), parse_value (trim p.2)))

/-- `parse_variable_assignment` (`functions.rs`): `$name = value`, emitted
as a step; also returns the warning recorded when `contains_key` fails on
the trimmed (not lowercased) name. -/
def parse_variable_assignment (line : String) (d : Dialogue)
    (current_line : Nat) : Option (DialogueStep × List String) :=
  ((stripPfx "$" line).bind (fun rest => splitOnceChar '=' rest)).map
    (fun p =>
      let variable_name := trim p.1
      let variable_value := parse_value (trim p.2)
      let ws : List String :=
        if !mapContains d.vars variable_name then
          [s!"Line {current_line}: Static variable definition not found [{variable_name}]"]
        else []
      (.VariableAssign (toLowerString variable_name) variable_value, ws))

/-- `parse_section_bounce` (`functions.rs`): `=><= target`. -/
def parse_section_bounce (line : String) : Option DialogueStep :=
  (stripPfx "=><=" line).map (fun t => .SectionBounce (trim t))

/-- `parse_section_jump` (`functions.rs`): `=> target`, with the
case-insensitive keywords `end` and `terminate`. -/
def parse_section_jump (line : String) : Option DialogueStep :=
  (stripPfx "=>" line).map (fun t =>
    let jump_section := trim t
    if toLowerString jump_section = "end" then .EndJump
    else if toLowerString jump_section = "terminate" then .TerminateJump
    else .SectionJump jump_section)

/-- `is_new_step` (`functions.rs`): the lookahead test ending multi-line
constructs. Applied to the raw (untrimmed) peeked line, as in the source. -/
def is_new_step (line : String) : Bool :=
  line.isEmpty ||
  (startsWith line "//" || startsWith line "@" || startsWith line "#" ||
   startsWith line "!" || startsWith line "$" ||
   startsWith line "=><=" || startsWith line "=>")

/-- The property sub-loop of `parse_actor_definition` (`functions.rs`):
consume following lines as `key: value` properties until a new construct,
an empty line, or a line with no separator (which is still consumed). -/
def actorPropsLoop : List String → List (String × DialogueValue) →
    List (String × DialogueValue) × List String
  | [], properties => (properties, [])
  | next_line :: rest, properties =>
    if is_new_step next_line then (properties, next_line :: rest)
    else
      match splitOnceChar ':' next_line with
      | none => (properties, rest)
      | some (property_name, property_value_raw) =>
        actorPropsLoop rest
          (mapInsert properties (toLowerString (trim property_name))
            (parse_value (trim property_value_raw)))

/-- `parse_actor_definition` (`functions.rs`): a `@name` line with no `:`
in the remainder, followed by a property block; the display name is the
textual "name" property when present, else the header identifier. Returns
the remaining lines after the consumed block. -/
def parse_actor_definition (line : String) (rest : List String) :
    Option ((String × DialogueActor) × List String) :=
  (stripPfx "@" line).bind (fun actor_definition =>
    if (splitOnceChar ':' actor_definition).isSome then none
    else
      let actor_name := trim actor_definition
      let propsAndRest := actorPropsLoop rest []
      let display_name :=
        match mapGet propsAndRest.1 "name" with
        | some (.Text override_name) => override_name
        | _ => actor_name
      some ((toLowerString actor_name, ⟨display_name, propsAndRest.1⟩),
        propsAndRest.2))

/-- `parse_function_definition` (`functions.rs`): `!name[(args)][: result]`;
the return value is split off at the first `:` before the argument list is
split off at the first `(`. -/
def parse_function_definition (line : String) :
    Option (String × DialogueFunction) :=
  (stripPfx "!" line).map (fun function_definition =>
    let sigAndResult : String × Option DialogueValue :=
      match splitOnceChar ':' function_definition with
      | some (function_signature, return_value) =>
        (function_signature, some (parse_value (trim return_value)))
      | none => (function_definition, none)
    let nameAndArgs : String × Option (List (String × DialogueValue)) :=
      match splitOnceChar '(' sigAndResult.1 with
      | some (function_name, arg_definitions) =>
        let arg_definitions := trim (trimEndMatches ')' arg_definitions)
        if !arg_definitions.isEmpty then
          (function_name,
            some ((splitString ',' arg_definitions).foldl
              (fun m arg =>
                match splitOnceChar '=' arg with
                | some (n, v) => mapInsert m (trim n) (parse_value (trim v))
                | none => mapInsert m (trim arg) (parse_value ""))
              []))
        else (function_name, none)
      | none => (sigAndResult.1, none)
    (toLowerString (trim nameAndArgs.1), ⟨nameAndArgs.2, sigAndResult.2⟩))

/-- `parse_text_line` (`functions.rs`): response, speaker line (with the
actor-existence warning), else plain text. Returns the line and the
warnings recorded while parsing it. -/
def parse_text_line (line : String) (d : Dialogue) (current_line : Nat) :
    DialogueLine × List String :=
  match stripPfx "-" line with
  | some response_text => (.Response (trim response_text) [], [])
  | none =>
  match splitOnceChar ':' line with
  | some (speakerRaw, textRaw) =>
    let speaker := trim speakerRaw
    let text := trim textRaw
    if !text.isEmpty then
      match stripPfx "@" speaker with
      | some sid =>
        let speaker_id := toLowerString (trim sid)
        let ws : List String :=
          if !mapContains d.actors speaker_id then
            [s!"Line {current_line}: Actor definition not found ({speaker_id})"]
          else []
        (.SpeakerText speaker_id text, ws)
      | none => (.SpeakerText speaker text, [])
    else (.Text line, [])
  | none => (.Text line, [])

/-- The page sub-loop of `parse_page` (`functions.rs`): consume following
raw lines into the page until one is a new construct or empty. Returns the
lines, the warnings, and the remaining input. -/
def pageLinesLoop (d : Dialogue) (current_line : Nat) :
    List String → List DialogueLine × List String × List String
  | [] => ([], [], [])
  | next_line :: rest =>
    if is_new_step next_line then ([], [], next_line :: rest)
    else
      let lw := parse_text_line next_line d current_line
      let rec_result := pageLinesLoop d current_line rest
      (lw.1 :: rec_result.1, lw.2 ++ rec_result.2.1, rec_result.2.2)

/-- `parse_page` (`functions.rs`): the fallback classifier; the current
line and the consumed lookahead lines form one `Page` step. The emptiness
check is kept from the source although the list always has a head. -/
def parse_page (line : String) (rest : List String) (d : Dialogue)
    (current_line : Nat) :
    Option DialogueStep × List String × List String :=
  let lw := parse_text_line line d current_line
  let sub := pageLinesLoop d current_line rest
  let page_lines := lw.1 :: sub.1
  if page_lines.isEmpty then (none, lw.2 ++ sub.2.1, sub.2.2)
  else (some (.Page page_lines), lw.2 ++ sub.2.1, sub.2.2)

/-- Replace the `sections` list of a dialogue. -/
def withSections (d : Dialogue) (ss : List DialogueSection) : Dialogue :=
  ⟨d.actors, d.vars, d.functions, ss⟩

/-- Replace the `actors` map of a dialogue. -/
def withActors (d : Dialogue) (m : List (String × DialogueActor)) : Dialogue :=
  ⟨m, d.vars, d.functions, d.sections⟩

/-- Replace the `variables` map of a dialogue. -/
def withVars (d : Dialogue) (m : List (String × DialogueValue)) : Dialogue :=
  ⟨d.actors, m, d.functions, d.sections⟩

/-- Replace the `functions` map of a dialogue. -/
def withFunctions (d : Dialogue) (m : List (String × DialogueFunction)) :
    Dialogue :=
  ⟨d.actors, d.vars, m, d.sections⟩

/-- The conditional push of the current section performed by `parse` both
on a new section header and after the loop: the section is appended only
when it has at least one step. -/
def commitSection (d : Dialogue) (current_section : DialogueSection) :
    Dialogue :=
  if !current_section.steps.isEmpty then
    withSections d (d.sections ++ [current_section])
  else d

/-- The line loop of `parse` (`functions.rs`, lines 63-139), with explicit
fuel (always instantiated with the number of remaining lines, which the
loop never exhausts since every iteration consumes at least one line; a
fuel-out finalizes like the end of input). Classifiers are tried in the
source order: section, actor, log, comment, function, variable definition,
variable assignment, bounce, jump, page. -/
def parseLoop : Nat → List String → Dialogue → DialogueSection →
    List String → Nat → Dialogue × List String
  | _, [], d, current_section, warnings, _ =>
    (commitSection d current_section, warnings)
  | 0, _ :: _, d, current_section, warnings, _ =>
    (commitSection d current_section, warnings)
  | fuel + 1, raw :: rest, d, current_section, warnings, line_number =>
    let line := trim raw
    let n := line_number + 1
    if line.isEmpty then parseLoop fuel rest d current_section warnings n
    else
      match parse_section line with
      | some new_section =>
        parseLoop fuel rest (commitSection d current_section) new_section
          warnings n
      | none =>
      match parse_actor_definition line rest with
      | some ((actor_id, actor), rem) =>
        parseLoop fuel rem (withActors d (mapInsert d.actors actor_id actor))
          current_section warnings n
      | none =>
      match parse_log_step line with
      | some log_step =>
        parseLoop fuel rest d
          ⟨current_section.name, current_section.steps ++ [log_step]⟩
          warnings n
      | none =>
      match parse_comment_step line with
      | some comment_step =>
        parseLoop fuel rest d
          ⟨current_section.name, current_section.steps ++ [comment_step]⟩
          warnings n
      | none =>
      match parse_function_definition line with
      | some (function_id, function) =>
        parseLoop fuel rest
          (withFunctions d (mapInsert d.functions function_id function))
          current_section warnings n
      | none =>
      match parse_variable_definition line with
      | some (variable_name, variable_value) =>
        parseLoop fuel rest
          (withVars d (mapInsert d.vars variable_name variable_value))
          current_section warnings n
      | none =>
      match parse_variable_assignment line d n with
      | some (variable_assign_step, ws) =>
        parseLoop fuel rest d
          ⟨current_section.name, current_section.steps ++ [variable_assign_step]⟩
          (warnings ++ ws) n
      | none =>
      match parse_section_bounce line with
      | some section_bounce_step =>
        parseLoop fuel rest d
          ⟨current_section.name, current_section.steps ++ [section_bounce_step]⟩
          warnings n
      | none =>
      match parse_section_jump line with
      | some section_jump_step =>
        parseLoop fuel rest d
          ⟨current_section.name, current_section.steps ++ [section_jump_step]⟩
          warnings n
      | none =>
      match parse_page line rest d n with
      | (some new_page, ws, rem) =>
        parseLoop fuel rem d
          ⟨current_section.name, current_section.steps ++ [new_page]⟩
          (warnings ++ ws) n
      | (none, ws, rem) =>
        parseLoop fuel rem d current_section (warnings ++ ws) n

/-- `ParseResult` (`functions.rs`). -/
structure ParseResult where
  dialogue : Dialogue
  warnings : List String
deriving DecidableEq

/-- `parse` (`functions.rs`): split the input into lines and run the line
loop starting from an empty document and the synthetic "Meta" section. -/
def parse (s : String) : ParseResult :=
  let lines := rustLines s
  let out := parseLoop lines.length lines emptyDialogue ⟨META_SECTION_NAME, []⟩ [] 0
  ⟨out.1, out.2⟩

/-- `DialogueState` (`player/mod.rs`): the `(section, step)` pointer pair.
The Rust field `section` is called `sec` here because `section` is reserved
in Lean. -/
structure DialogueState where
  sec : DialogueSection
  step : DialogueStep
deriving DecidableEq

/-- The section lookup `dialogue.sections.iter().find(|s| s.name == name)`
used by both jump and bounce. -/
def findSection (d : Dialogue) (section_name : String) :
    Option DialogueSection :=
  d.sections.find? (fun s => s.name == section_name)

/-- `find_next_state` (`player/mod.rs`, lines 157-186): skip the current
section's steps while they differ from the current step and take the
element after the first match; otherwise do the same on the section list
and take the next section's first step — whose `unwrap` is modelled by the
`Except` error (the panic case). -/
def find_next_state (current_state : DialogueState) (d : Dialogue) :
    Except Unit (Option DialogueState) :=
  match (current_state.sec.steps.dropWhile
      (fun l => !(l == current_state.step))).get? 1 with
  | some next_step => .ok (some ⟨current_state.sec, next_step⟩)
  | none =>
  match (d.sections.dropWhile (fun s => !(s == current_state.sec))).get? 1 with
  | some next_section =>
    match next_section.steps.head? with
    | some first_step => .ok (some ⟨next_section, first_step⟩)
    | none => .error ()
  | none => .ok none

/-- Result of executing one popped state in the `play` loop:
`panic` models a panicking `unwrap`, `halt` the `break` of `TerminateJump`,
`deadEnd` a `continue` (nothing pushed), and `contWith d pushes` the fall
through to the bottom of the loop with the possibly updated dialogue and
the states pushed in this tick, topmost first. -/
inductive ExecResult where
  | panic
  | halt
  | deadEnd
  | contWith (d : Dialogue) (pushes : List DialogueState)
deriving DecidableEq

/-- The bottom of the `play` loop body (`player/mod.rs`, lines 144-151):
`new_state.or(find_next_state(...))`. Rust's `Option::or` evaluates its
argument eagerly, so `find_next_state` runs — and can panic — even when
`new_state` is already `Some`. -/
def fallThrough (current_state : DialogueState) (d : Dialogue)
    (new_state : Option DialogueState) : ExecResult :=
  match find_next_state current_state d with
  | .error _ => .panic
  | .ok ft =>
    match new_state with
    | some s => .contWith d [s]
    | none =>
      match ft with
      | some s => .contWith d [s]
      | none => .contWith d []

/-- The body of one iteration of the `play` loop (`player/mod.rs`,
lines 44-151), for the popped `current_state`: the `match` on the step kind
followed by the shared fall-through tail. Output (printing) is not
modelled; all state effects are. -/
def execStep (current_state : DialogueState) (d : Dialogue) : ExecResult :=
  match current_state.step with
  | .Comment _ => fallThrough current_state d none
  | .LogInfo _ => fallThrough current_state d none
  | .LogWarning _ => fallThrough current_state d none
  | .LogError _ => fallThrough current_state d none
  | .SectionJump section_name =>
    match findSection d section_name with
    | none => .deadEnd
    | some new_section =>
      match new_section.steps.head? with
      | none => .deadEnd
      | some new_page =>
        fallThrough current_state d (some ⟨new_section, new_page⟩)
  | .SectionBounce section_name =>
    match findSection d section_name with
    | none => .deadEnd
    | some new_section =>
      match new_section.steps.head? with
      | none => .deadEnd
      | some new_page =>
        match find_next_state current_state d with
        | .error _ => .panic
        | .ok ft => .contWith d (⟨new_section, new_page⟩ :: ft.toList)
  | .EndJump => .deadEnd
  | .TerminateJump => .halt
  | .Page _ => fallThrough current_state d none
  | .VariableAssign name value =>
    fallThrough current_state
      (withVars d (mapInsert
        (if mapContains d.vars name then mapRemove d.vars name else d.vars)
        name value)) none

/-- Terminal status of a (fuel-bounded) run of the `play` loop. -/
inductive Outcome where
  | completed
  | panicked
  | fuelOut
deriving DecidableEq

/-- The `while let Some(current_state) = dialogue_stack.pop()` loop of
`play`, fuel-bounded (the Rust loop need not terminate). The head of
`stack` is the top of the Rust `Vec`. Returns the executed states in
order, the final dialogue, and how the run stopped. -/
def playLoop : Nat → Dialogue → List DialogueState →
    List DialogueState × Dialogue × Outcome
  | 0, d, _ => ([], d, .fuelOut)
  | _ + 1, d, [] => ([], d, .completed)
  | fuel + 1, d, current_state :: rest =>
    match execStep current_state d with
    | .panic => ([current_state], d, .panicked)
    | .halt => ([current_state], d, .completed)
    | .deadEnd =>
      let out := playLoop fuel d rest
      (current_state :: out.1, out.2.1, out.2.2)
    | .contWith d' pushes =>
      let out := playLoop fuel d' (pushes ++ rest)
      (current_state :: out.1, out.2.1, out.2.2)

/-- `play` (`player/mod.rs`): the two initial `expect`s (no sections, or an
empty first section) are modelled as an immediately `panicked` run; then
the loop starts from the first section's first step. -/
def play (fuel : Nat) (d : Dialogue) :
    List DialogueState × Dialogue × Outcome :=
  match d.sections.head? with
  | none => ([], d, .panicked)
  | some first_section =>
    match first_section.steps.head? with
    | none => ([], d, .panicked)
    | some first_step => playLoop fuel d [⟨first_section, first_step⟩]

/-- Script whose first section bounces into a section (`B`) that is
followed by another section (`C`) in document order. -/
def bounceScript : String := "#A\n=><= B\nafter\n#B\nb\n#C\nc"

/-- Section `A` of `bounceScript` as the parser produces it. -/
def secAParsed : DialogueSection :=
  ⟨"A", [.SectionBounce "B", .Page [.Text "after"]]⟩

/-- Section `B` of `bounceScript` as the parser produces it. -/
def secBParsed : DialogueSection := ⟨"B", [.Page [.Text "b"]]⟩

/-- Section `C` of `bounceScript` as the parser produces it. -/
def secCParsed : DialogueSection := ⟨"C", [.Page [.Text "c"]]⟩

/-- Script whose bounce names a section that does not exist. -/
def missBounceScript : String := "=><= nowhere\nafter"

/-- The single section of `missBounceScript` as the parser produces it. -/
def missBounceSection : DialogueSection :=
  ⟨META_SECTION_NAME, [.SectionBounce "nowhere", .Page [.Text "after"]]⟩

/-- A section with two equal steps around a distinct one; the player's
value-based step lookup cannot tell the two occurrences apart. -/
def dupSection : DialogueSection :=
  ⟨"D", [.Comment "a", .Comment "b", .Comment "a"]⟩

/-- A dialogue consisting of `dupSection` alone. -/
def dupDialogue : Dialogue := ⟨[], [], [], [dupSection]⟩

theorem commitSection_nonempty (d : Dialogue) (cs : DialogueSection)
    (h : ∀ s ∈ d.sections, s.steps ≠ []) :
    ∀ s ∈ (commitSection d cs).sections, s.steps ≠ [] := by
  unfold commitSection
  split
  · intro s hs
    rcases List.mem_append.mp hs with hmem | hmem
    · exact h s hmem
    · rcases List.mem_singleton.mp hmem with rfl
      rename_i hne
      simpa [List.isEmpty_iff] using hne
  · exact h

theorem parseLoop_sections_nonempty (fuel : Nat) :
    ∀ (lines : List String) (d : Dialogue) (cs : DialogueSection)
      (w : List String) (n : Nat),
      (∀ s ∈ d.sections, s.steps ≠ []) →
      ∀ s ∈ (parseLoop fuel lines d cs w n).1.sections, s.steps ≠ [] := by
  induction fuel with
  | zero =>
    intro lines d cs w n h
    cases lines <;> exact commitSection_nonempty d cs h
  | succ fuel ih =>
    intro lines d cs w n h
    cases lines with
    | nil => exact commitSection_nonempty d cs h
    | cons raw rest =>
      simp only [parseLoop]
      repeat' split
      all_goals first
        | exact ih _ _ _ _ _ h
        | exact ih _ _ _ _ _ (commitSection_nonempty _ _ h)

theorem fallThrough_dialogue (c : DialogueState) (d : Dialogue)
    (ns : Option DialogueState) (d' : Dialogue) (p : List DialogueState)
    (h : fallThrough c d ns = .contWith d' p) : d' = d := by
  unfold fallThrough at h
  repeat' split at h
  all_goals cases h
  all_goals rfl

theorem execStep_frame (c : DialogueState) (d : Dialogue) (d' : Dialogue)
    (p : List DialogueState) (h : execStep c d = .contWith d' p) :
    d'.actors = d.actors ∧ d'.functions = d.functions ∧
      d'.sections = d.sections := by
  unfold execStep at h
  repeat' split at h
  all_goals first
    | cases h
    | (obtain rfl := fallThrough_dialogue _ _ _ _ _ h; exact ⟨rfl, rfl, rfl⟩)
  all_goals exact ⟨rfl, rfl, rfl⟩

theorem playLoop_frame (fuel : Nat) :
    ∀ (d : Dialogue) (stack : List DialogueState),
      (playLoop fuel d stack).2.1.actors = d.actors ∧
      (playLoop fuel d stack).2.1.functions = d.functions ∧
      (playLoop fuel d stack).2.1.sections = d.sections := by
  induction fuel with
  | zero => intro d stack; exact ⟨rfl, rfl, rfl⟩
  | succ fuel ih =>
    intro d stack
    cases stack with
    | nil => exact ⟨rfl, rfl, rfl⟩
    | cons c rest =>
      simp only [playLoop]
      split
      · exact ⟨rfl, rfl, rfl⟩
      · exact ⟨rfl, rfl, rfl⟩
      · exact ih d rest
      · rename_i d' pushes hexec
        have hf := execStep_frame c d d' pushes hexec
        have hl := ih d' (pushes ++ rest)
        exact ⟨hl.1.trans hf.1, hl.2.1.trans hf.2.1, hl.2.2.trans hf.2.2⟩

theorem find_next_state_no_error (d : Dialogue)
    (hd : ∀ s ∈ d.sections, s.steps ≠ []) (c : DialogueState) :
    find_next_state c d ≠ .error () := by
  unfold find_next_state
  split
  · simp
  · split
    · rename_i next_section hsec
      split
      · simp
      · rename_i hhead
        exfalso
        have hmem : next_section ∈ d.sections :=
          (List.dropWhile_sublist _).mem (List.get?_mem hsec)
        exact hd next_section hmem
          (by simpa [List.head?_eq_none_iff] using hhead)
    · simp

theorem execStep_no_panic (c : DialogueState) (d : Dialogue)
    (hd : ∀ s ∈ d.sections, s.steps ≠ []) : execStep c d ≠ .panic := by
  have hfns := find_next_state_no_error d hd c
  have hft : ∀ ns, fallThrough c d ns ≠ .panic := by
    intro ns
    unfold fallThrough
    split
    · rename_i u herr
      cases u
      exact absurd herr hfns
    · repeat' split
      all_goals simp
  have hft2 : ∀ ns m, fallThrough c (withVars d m) ns ≠ .panic := by
    intro ns m
    have hfns2 := find_next_state_no_error (withVars d m) hd c
    unfold fallThrough
    split
    · rename_i u herr
      cases u
      exact absurd herr hfns2
    · repeat' split
      all_goals simp
  unfold execStep
  repeat' split
  all_goals first
    | exact hft _
    | exact hft2 _ _
    | simp
  rename_i u herr
  cases u
  exact absurd herr hfns

theorem playLoop_no_panicked (fuel : Nat) :
    ∀ (d : Dialogue) (stack : List DialogueState),
      (∀ s ∈ d.sections, s.steps ≠ []) →
      (playLoop fuel d stack).2.2 ≠ .panicked := by
  induction fuel with
  | zero => intro d stack hd; simp [playLoop]
  | succ fuel ih =>
    intro d stack hd
    cases stack with
    | nil => simp [playLoop]
    | cons c rest =>
      simp only [playLoop]
      split
      · rename_i h
        exact absurd h (execStep_no_panic c d hd)
      · simp
      · exact ih d rest hd
      · rename_i d' pushes h
        have hf := execStep_frame c d d' pushes h
        exact ih d' (pushes ++ rest) (fun s hs => hd s (hf.2.2 ▸ hs))

theorem dropWhile_bne {α : Type} [DecidableEq α] (x : α) :
    ∀ (pre post : List α), x ∉ pre →
      (pre ++ x :: post).dropWhile (fun l => !(l == x)) = x :: post := by
  intro pre
  induction pre with
  | nil => intro post _; simp [List.dropWhile]
  | cons a pre ihp =>
    intro post h
    have ha : a ≠ x := fun hax => h (hax ▸ List.mem_cons_self a pre)
    have hpre : x ∉ pre := fun hm => h (List.mem_cons_of_mem a hm)
    simp only [List.cons_append, List.dropWhile_cons]
    rw [if_pos (by simp [ha])]
    exact ihp post hpre

theorem mapGet_cons {α : Type} (p : String × α) (m : List (String × α))
    (k : String) :
    mapGet (p :: m) k = if p.1 == k then some p.2 else mapGet m k := by
  by_cases hp : (p.1 == k) = true
  · simp [mapGet, List.find?_cons_of_pos, hp]
  · have hpf : (p.1 == k) = false := by simpa using hp
    simp [mapGet, List.find?_cons_of_neg, hpf]

theorem mapGet_replace {α : Type} (k : String) (v : α) :
    ∀ (m : List (String × α)), mapContains m k = true →
      mapGet (m.map (fun p => if p.1 == k then (k, v) else p)) k = some v := by
  intro m
  induction m with
  | nil => intro hc; simp [mapContains] at hc
  | cons p m ihm =>
    intro hc
    by_cases hp : (p.1 == k) = true
    · simp only [List.map_cons, if_pos hp, mapGet_cons]
      simp
    · have hpf : (p.1 == k) = false := by simpa using hp
      have hc' : mapContains m k = true := by
        simp only [mapContains, List.any_cons, Bool.or_eq_true] at hc
        rcases hc with hh | ht
        · exact absurd hh hp
        · simpa [mapContains] using ht
      simp only [List.map_cons, hpf, Bool.false_eq_true, if_false, mapGet_cons]
      exact ihm hc'

theorem mapGet_append_new {α : Type} (k : String) (v : α) :
    ∀ (m : List (String × α)), mapContains m k = false →
      mapGet (m ++ [(k, v)]) k = some v := by
  intro m
  induction m with
  | nil => intro _; simp [mapGet_cons]
  | cons p m ihm =>
    intro hc
    simp only [mapContains, List.any_cons, Bool.or_eq_false_iff] at hc
    simp only [List.cons_append, mapGet_cons]
    rw [if_neg (by simp [hc.1])]
    exact ihm (by simpa [mapContains] using hc.2)

theorem mapGet_mapInsert {α : Type} (m : List (String × α)) (k : String)
    (v : α) : mapGet (mapInsert m k v) k = some v := by
  unfold mapInsert
  split
  · rename_i hc
    exact mapGet_replace k v m hc
  · rename_i hc
    exact mapGet_append_new k v m (by simpa using hc)

/-- C4 (counterexample): on the input `"#A"` the claim asserts that the
final in-progress section `A` is appended to the document even though it is
empty; the code appends nothing, so the section list is empty. -/
theorem claim_C4_counterexample :
    (parse "#A").dialogue.sections = [] ∧
    (⟨"A", []⟩ : DialogueSection) ∉ (parse "#A").dialogue.sections := by
  decide

/-- C4 (amended): for every input string, every section of the parsed
document — the last one included — has a non-empty step list: a section is
appended only when it has at least one step, and the final in-progress
section is subject to the same non-emptiness condition rather than being
appended unconditionally. -/
theorem claim_C4_sections_appended_only_nonempty (s : String) :
    ∀ sec ∈ (parse s).dialogue.sections, sec.steps ≠ [] := by
  intro sec hs
  exact parseLoop_sections_nonempty _ _ _ _ _ _
    (fun t ht => absurd ht (List.not_mem_nil t)) sec hs

/-- C4 (witness): the amended theorem applied to the input `"hi"` and its
parsed Meta section. -/
theorem claim_C4_witness :
    (⟨META_SECTION_NAME, [.Page [.Text "hi"]]⟩ : DialogueSection).steps ≠ [] :=
  claim_C4_sections_appended_only_nonempty "hi"
    ⟨META_SECTION_NAME, [.Page [.Text "hi"]]⟩ (by decide)

/-- C10: every section of a parser-produced document has a non-empty step
list, so the `unwrap` of the next section's first step in
`find_next_state` cannot fire (modelled as the `Except` error), and no run
of the player loop on a parser-produced document ends in the panicked
outcome, whatever the stack. -/
theorem claim_C10_no_fall_through_panic (s : String) (c : DialogueState)
    (fuel : Nat) (stack : List DialogueState) :
    find_next_state c (parse s).dialogue ≠ .error () ∧
    (playLoop fuel (parse s).dialogue stack).2.2 ≠ .panicked := by
  have hinv : ∀ sec ∈ (parse s).dialogue.sections, sec.steps ≠ [] :=
    fun sec hs => parseLoop_sections_nonempty _ _ _ _ _ _
      (fun t ht => absurd ht (List.not_mem_nil t)) sec hs
  exact ⟨find_next_state_no_error _ hinv c,
    playLoop_no_panicked fuel _ stack hinv⟩

/-- C8: parsing `$x: 1` followed by `$x = 2` leaves the static variable
map at `Number 1` while the Meta section holds a `VariableAssign` step
carrying `Number 2`: declaration and assignment are recorded
independently. -/
theorem claim_C8_declaration_assignment_independent :
    mapGet (parse "$x: 1\n$x = 2").dialogue.vars "x" = some (.Number 1) ∧
    (parse "$x: 1\n$x = 2").dialogue.sections =
      [⟨META_SECTION_NAME, [.VariableAssign "x" (.Number 2)]⟩] ∧
    (parse "$x: 1\n$x = 2").warnings = [] := by
  decide

/-- C5 (code divergence): on `$X: 1` followed by `$X = 2` the variable `x`
is declared (the declaration lowercases the key), yet the assignment warns,
because `parse_variable_assignment` looks up the trimmed name `X`
case-sensitively against the lowercased keys; the assignment step is still
emitted. -/
theorem claim_C5_spurious_warning_on_declared_variable :
    mapContains (parse "$X: 1\n$X = 2").dialogue.vars "x" = true ∧
    (parse "$X: 1\n$X = 2").dialogue.vars = [("x", .Number 1)] ∧
    (parse "$X: 1\n$X = 2").warnings =
      ["Line 2: Static variable definition not found [X]"] ∧
    (parse "$X: 1\n$X = 2").dialogue.sections =
      [⟨META_SECTION_NAME, [.VariableAssign "x" (.Number 2)]⟩] := by
  decide

/-- C6: `parse_value` classifies its input in strict order — boolean, then
number, then bracketed comma-array, else text — and on the five reference
inputs produces `Boolean true`, `Number 26`, `Array ["a", "b"]`,
`Text "hello"` and `Array ["true", "2"]`; bracketed array elements are the
raw trimmed strings and are never re-typed. -/
theorem claim_C6_parse_value_order :
    (∀ s b, parseRustBool s = some b → parse_value s = .Boolean b) ∧
    (∀ s q, parseRustBool s = none → parseRustF64 s = some q →
      parse_value s = .Number q) ∧
    (∀ s inner, parseRustBool s = none → parseRustF64 s = none →
      (stripPfx "[" s).bind (fun t => stripSfx "]" t) = some inner →
      parse_value s =
        .Array (((splitString ',' inner).map trim).filter
          (fun t => !t.isEmpty))) ∧
    (∀ s, parseRustBool s = none → parseRustF64 s = none →
      (stripPfx "[" s).bind (fun t => stripSfx "]" t) = none →
      parse_value s = .Text s) ∧
    parse_value "true" = .Boolean true ∧
    parse_value "26" = .Number 26 ∧
    parse_value "[a, b]" = .Array ["a", "b"] ∧
    parse_value "hello" = .Text "hello" ∧
    parse_value "[true, 2]" = .Array ["true", "2"] := by
  refine ⟨?_, ?_, ?_, ?_, by decide, by decide, by decide, by decide,
    by decide⟩
  · intro s b h
    simp [parse_value, h]
  · intro s q h1 h2
    simp [parse_value, h1, h2]
  · intro s inner h1 h2 h3
    simp [parse_value, h1, h2, h3]
  · intro s h1 h2 h3
    simp [parse_value, h1, h2, h3]

/-- C6 (witness): the number branch of the order theorem applied to
`"7"`. -/
theorem claim_C6_witness : parse_value "7" = .Number 7 :=
  claim_C6_parse_value_order.2.1 "7" 7 (by decide) (by decide)

/-- C1 (code divergence at a concrete input): playing `bounceScript`, the
bounce in section `A` pushes the fall-through successor (the `after` page)
and enters `B`; but when `B`'s steps are exhausted, the state executed next
(trace position 2) is `C`'s first step, not the step after the bounce —
control falls through into the following section, and `B` and `C` are even
replayed after `after` finally runs. Only the bounce's push behaviour, an
`EndJump` return, and `TerminateJump` match the claim. -/
theorem claim_C1_bounce_does_not_return_on_exhaustion :
    (parse bounceScript).dialogue.sections =
      [secAParsed, secBParsed, secCParsed] ∧
    (play 10 (parse bounceScript).dialogue).1 =
      [⟨secAParsed, .SectionBounce "B"⟩, ⟨secBParsed, .Page [.Text "b"]⟩,
       ⟨secCParsed, .Page [.Text "c"]⟩, ⟨secAParsed, .Page [.Text "after"]⟩,
       ⟨secBParsed, .Page [.Text "b"]⟩, ⟨secCParsed, .Page [.Text "c"]⟩] ∧
    (play 10 (parse bounceScript).dialogue).1.get? 2 ≠
      some ⟨secAParsed, .Page [.Text "after"]⟩ ∧
    (play 10 (parse bounceScript).dialogue).2.2 = .completed := by
  decide

/-- C2 (counterexample): playing `missBounceScript`, whose bounce names a
missing section, the claim asserts normal fall-through, so the `after`
page would be executed next; instead the run ends after the bounce step
and the `after` page is never executed. -/
theorem claim_C2_counterexample :
    (parse missBounceScript).dialogue.sections = [missBounceSection] ∧
    (play 10 (parse missBounceScript).dialogue).1 =
      [⟨missBounceSection, .SectionBounce "nowhere"⟩] ∧
    (⟨missBounceSection, .Page [.Text "after"]⟩ : DialogueState) ∉
      (play 10 (parse missBounceScript).dialogue).1 ∧
    (play 10 (parse missBounceScript).dialogue).2.2 = .completed := by
  decide

/-- C2 (amended): a `SectionBounce` whose target matches no section
reports the error and acts as a dead end — nothing is pushed, no jump
happens, and no fall-through state is produced: the loop resumes from
whatever is below on the stack (ending the session when it is empty), the
dialogue unchanged. -/
theorem claim_C2_unresolved_bounce_dead_end (d : Dialogue)
    (c : DialogueState) (rest : List DialogueState) (target : String)
    (fuel : Nat) (hstep : c.step = .SectionBounce target)
    (hmiss : findSection d target = none) :
    execStep c d = .deadEnd ∧
    playLoop (fuel + 1) d (c :: rest) =
      (c :: (playLoop fuel d rest).1, (playLoop fuel d rest).2.1,
        (playLoop fuel d rest).2.2) := by
  have hexec : execStep c d = .deadEnd := by
    simp [execStep, hstep, hmiss]
  refine ⟨hexec, ?_⟩
  simp [playLoop, hexec]

/-- C2 (witness): the amended theorem applied to an unresolved bounce on
the empty dialogue with an empty remaining stack. -/
theorem claim_C2_witness :
    execStep ⟨⟨"A", [.SectionBounce "nowhere"]⟩, .SectionBounce "nowhere"⟩
        emptyDialogue = .deadEnd ∧
    playLoop 1 emptyDialogue
        [⟨⟨"A", [.SectionBounce "nowhere"]⟩, .SectionBounce "nowhere"⟩] =
      (⟨⟨"A", [.SectionBounce "nowhere"]⟩, .SectionBounce "nowhere"⟩ ::
          (playLoop 0 emptyDialogue []).1,
        (playLoop 0 emptyDialogue []).2.1,
        (playLoop 0 emptyDialogue []).2.2) :=
  claim_C2_unresolved_bounce_dead_end emptyDialogue
    ⟨⟨"A", [.SectionBounce "nowhere"]⟩, .SectionBounce "nowhere"⟩ []
    "nowhere" 0 rfl (by decide)

/-- Definitional unfolding of `find_next_state` on an explicit state. -/
theorem find_next_state_mk (sec : DialogueSection) (step : DialogueStep)
    (d : Dialogue) :
    find_next_state ⟨sec, step⟩ d =
      (match (sec.steps.dropWhile (fun l => !(l == step))).get? 1 with
       | some next_step => Except.ok (some ⟨sec, next_step⟩)
       | none =>
         match (d.sections.dropWhile (fun s => !(s == sec))).get? 1 with
         | some next_section =>
           match next_section.steps.head? with
           | some first_step => Except.ok (some ⟨next_section, first_step⟩)
           | none => Except.error ()
         | none => Except.ok none) := rfl

/-- C3 (counterexample): in a section whose last step equals an earlier
step (`a`, `b`, `a`), the claim requires the session to end after the
third executed step (the section's last step, with no further section);
instead the equality-based lookup resumes after the first occurrence, a
fourth state (`b` again) is executed, and the run is still going when the
fuel ends. -/
theorem claim_C3_counterexample :
    (play 4 dupDialogue).1 =
      [⟨dupSection, .Comment "a"⟩, ⟨dupSection, .Comment "b"⟩,
       ⟨dupSection, .Comment "a"⟩, ⟨dupSection, .Comment "b"⟩] ∧
    (play 4 dupDialogue).2.2 = .fuelOut := by
  decide

/-- C3 (amended): the fall-through rule holds relative to first
occurrences: when the current step occurs in its section after a prefix
not containing an equal step, the engine advances to the following step if
one exists; otherwise, when the current section likewise occurs after a
prefix of distinct sections, it advances to the next section's first step
when there is a next section (assumed non-empty), and the session ends
when there is none. When the executed step equals an earlier step of its
section this positional reading fails (see the counterexample). -/
theorem claim_C3_fall_through_rule (d : Dialogue) (sec : DialogueSection)
    (step : DialogueStep) (pre post : List DialogueStep)
    (hsec : sec.steps = pre ++ step :: post) (hpre : step ∉ pre) :
    (∀ nxt rest2, post = nxt :: rest2 →
      find_next_state ⟨sec, step⟩ d = .ok (some ⟨sec, nxt⟩)) ∧
    (post = [] →
      ∀ spre spost, d.sections = spre ++ sec :: spost → sec ∉ spre →
        (∀ ns srest s0 ss, spost = ns :: srest → ns.steps = s0 :: ss →
          find_next_state ⟨sec, step⟩ d = .ok (some ⟨ns, s0⟩)) ∧
        (spost = [] → find_next_state ⟨sec, step⟩ d = .ok none)) := by
  constructor
  · intro nxt rest2 hpost
    subst hpost
    rw [find_next_state_mk, hsec, dropWhile_bne step pre _ hpre]
    simp [List.get?]
  · intro hpost spre spost hsecs hspre
    subst hpost
    constructor
    · intro ns srest s0 ss hspost hns
      subst hspost
      rw [find_next_state_mk, hsec, dropWhile_bne step pre _ hpre, hsecs,
        dropWhile_bne sec spre _ hspre]
      simp [List.get?, hns]
    · intro hspost
      subst hspost
      rw [find_next_state_mk, hsec, dropWhile_bne step pre _ hpre, hsecs,
        dropWhile_bne sec spre _ hspre]
      simp [List.get?]

/-- C3 (witness): the amended theorem applied to a last step of a first
section, falling through to the second section's first step. -/
theorem claim_C3_witness :
    find_next_state ⟨⟨"S1", [.Comment "x"]⟩, .Comment "x"⟩
        ⟨[], [], [], [⟨"S1", [.Comment "x"]⟩, ⟨"S2", [.Comment "y"]⟩]⟩ =
      .ok (some ⟨⟨"S2", [.Comment "y"]⟩, .Comment "y"⟩) :=
  ((claim_C3_fall_through_rule
      ⟨[], [], [], [⟨"S1", [.Comment "x"]⟩, ⟨"S2", [.Comment "y"]⟩]⟩
      ⟨"S1", [.Comment "x"]⟩ (.Comment "x") [] [] rfl (by decide)).2 rfl
      [] [⟨"S2", [.Comment "y"]⟩] rfl (by decide)).1
    ⟨"S2", [.Comment "y"]⟩ [] (.Comment "y") [] rfl rfl

/-- C7: parsing never fails — a trimmed, non-empty line on which every
classifier (section, actor, log, comment, function, variable definition,
variable assignment, bounce, jump) returns `none` is always consumed by
`parse_page` into a `Page` step whose first line is `parse_text_line`'s
output, and the loop continues; when the line moreover is not a response
and has no speaker split with non-empty text, that line is the plain
`Text` fallback. -/
theorem claim_C7_unrecognized_line_degrades
    (raw : String) (rest : List String) (fuel : Nat) (d : Dialogue)
    (cs : DialogueSection) (w : List String) (n : Nat)
    (hne : (trim raw).isEmpty = false)
    (h1 : parse_section (trim raw) = none)
    (h2 : parse_actor_definition (trim raw) rest = none)
    (h3 : parse_log_step (trim raw) = none)
    (h4 : parse_comment_step (trim raw) = none)
    (h5 : parse_function_definition (trim raw) = none)
    (h6 : parse_variable_definition (trim raw) = none)
    (h7 : parse_variable_assignment (trim raw) d (n + 1) = none)
    (h8 : parse_section_bounce (trim raw) = none)
    (h9 : parse_section_jump (trim raw) = none) :
    (parse_page (trim raw) rest d (n + 1) =
      (some (.Page ((parse_text_line (trim raw) d (n + 1)).1 ::
          (pageLinesLoop d (n + 1) rest).1)),
        (parse_text_line (trim raw) d (n + 1)).2 ++
          (pageLinesLoop d (n + 1) rest).2.1,
        (pageLinesLoop d (n + 1) rest).2.2) ∧
      parseLoop (fuel + 1) (raw :: rest) d cs w n =
        parseLoop fuel (pageLinesLoop d (n + 1) rest).2.2 d
          ⟨cs.name, cs.steps ++
            [.Page ((parse_text_line (trim raw) d (n + 1)).1 ::
              (pageLinesLoop d (n + 1) rest).1)]⟩
          (w ++ ((parse_text_line (trim raw) d (n + 1)).2 ++
            (pageLinesLoop d (n + 1) rest).2.1)) (n + 1)) ∧
    (stripPfx "-" (trim raw) = none →
      (∀ sp tx, splitOnceChar ':' (trim raw) = some (sp, tx) →
        (trim tx).isEmpty = true) →
      (parse_text_line (trim raw) d (n + 1)).1 = .Text (trim raw)) := by
  constructor
  · have hpp : parse_page (trim raw) rest d (n + 1) =
        (some (.Page ((parse_text_line (trim raw) d (n + 1)).1 ::
            (pageLinesLoop d (n + 1) rest).1)),
          (parse_text_line (trim raw) d (n + 1)).2 ++
            (pageLinesLoop d (n + 1) rest).2.1,
          (pageLinesLoop d (n + 1) rest).2.2) := rfl
    refine ⟨hpp, ?_⟩
    simp only [parseLoop, hne, Bool.false_eq_true, if_false, h1, h2, h3,
      h4, h5, h6, h7, h8, h9, hpp]
  · intro hresp hsp
    unfold parse_text_line
    rw [hresp]
    cases hsplit : splitOnceChar ':' (trim raw) with
    | none => rfl
    | some p =>
      obtain ⟨sp, tx⟩ := p
      have htx := hsp sp tx hsplit
      simp [htx]

/-- C7 (witness): the theorem applied to the unrecognized line
`"hello world!"` as the whole input. -/
theorem claim_C7_witness :
    (parse_page (trim "hello world!") [] emptyDialogue (0 + 1) =
      (some (.Page ((parse_text_line (trim "hello world!") emptyDialogue
          (0 + 1)).1 :: (pageLinesLoop emptyDialogue (0 + 1) []).1)),
        (parse_text_line (trim "hello world!") emptyDialogue (0 + 1)).2 ++
          (pageLinesLoop emptyDialogue (0 + 1) []).2.1,
        (pageLinesLoop emptyDialogue (0 + 1) []).2.2) ∧
      parseLoop (0 + 1) ["hello world!"] emptyDialogue
          ⟨META_SECTION_NAME, []⟩ [] 0 =
        parseLoop 0 (pageLinesLoop emptyDialogue (0 + 1) []).2.2
          emptyDialogue
          ⟨(⟨META_SECTION_NAME, []⟩ : DialogueSection).name,
            (⟨META_SECTION_NAME, []⟩ : DialogueSection).steps ++
            [.Page ((parse_text_line (trim "hello world!") emptyDialogue
                (0 + 1)).1 ::
              (pageLinesLoop emptyDialogue (0 + 1) []).1)]⟩
          ([] ++ ((parse_text_line (trim "hello world!") emptyDialogue
              (0 + 1)).2 ++
            (pageLinesLoop emptyDialogue (0 + 1) []).2.1)) (0 + 1)) ∧
    (stripPfx "-" (trim "hello world!") = none →
      (∀ sp tx, splitOnceChar ':' (trim "hello world!") = some (sp, tx) →
        (trim tx).isEmpty = true) →
      (parse_text_line (trim "hello world!") emptyDialogue (0 + 1)).1 =
        .Text (trim "hello world!")) :=
  claim_C7_unrecognized_line_degrades "hello world!" [] 0 emptyDialogue
    ⟨META_SECTION_NAME, []⟩ [] 0 (by decide) (by decide) (by decide)
    (by decide) (by decide) (by decide) (by decide) (by decide)
    (by decide) (by decide)

/-- C9: throughout every (fuel-bounded) run of the player loop, the
actors map, the functions map and the section list of the final dialogue
are those of the input dialogue — only the variables map mutates — and a
`VariableAssign` step that continues the loop leaves its value stored
wholesale under its name. -/
theorem claim_C9_only_variables_mutate (fuel : Nat) (d : Dialogue)
    (stack : List DialogueState) (c : DialogueState) (d' : Dialogue)
    (p : List DialogueState) (name : String) (value : DialogueValue) :
    ((playLoop fuel d stack).2.1.actors = d.actors ∧
     (playLoop fuel d stack).2.1.functions = d.functions ∧
     (playLoop fuel d stack).2.1.sections = d.sections) ∧
    (c.step = .VariableAssign name value → execStep c d = .contWith d' p →
      mapGet d'.vars name = some value) := by
  refine ⟨playLoop_frame fuel d stack, ?_⟩
  intro hstep hexec
  simp only [execStep, hstep] at hexec
  obtain rfl := fallThrough_dialogue _ _ _ _ _ hexec
  exact mapGet_mapInsert _ _ _

/-- C9 (witness): the assignment conjunct applied to a one-step dialogue
assigning `x := true`. -/
theorem claim_C9_witness :
    mapGet (Dialogue.mk [] [("x", DialogueValue.Boolean true)] []
        [⟨"S", [.VariableAssign "x" (.Boolean true)]⟩]).vars "x" =
      some (.Boolean true) :=
  (claim_C9_only_variables_mutate 0
      ⟨[], [], [], [⟨"S", [.VariableAssign "x" (.Boolean true)]⟩]⟩ []
      ⟨⟨"S", [.VariableAssign "x" (.Boolean true)]⟩,
        .VariableAssign "x" (.Boolean true)⟩
      ⟨[], [("x", DialogueValue.Boolean true)], [],
        [⟨"S", [.VariableAssign "x" (.Boolean true)]⟩]⟩
      [] "x" (.Boolean true)).2 rfl (by decide)
